import Mathlib

/-!
Verification of the route-leaks detection engine (ANSSI-FR/route_leaks).

The definitions below are a shallow embedding of
`src/route_leaks_detection/heuristics/detect_route_leaks.py` and
`src/route_leaks_detection/classification/classification.py`.

Modelling conventions:
* Python numbers (ints and floats) are modelled as rationals (ℚ).
* `np.std x = sqrt (pvariance x)`; the only use of `np.std` in the peak
  finder is the comparison `smooth_std < std * percent_std`, which for
  non-negative operands is equivalent to
  `0 ≤ percent_std ∧ pvariance smooth < percent_std ^ 2 * pvariance data`
  (squaring is strictly monotone on non-negative reals), so it is modelled
  on variances, exactly, with no square roots.
* Fallible Python code (IndexError / ValueError on empty sequences) is
  modelled with `Option`: `none` is an uncaught exception.
* Python dicts are modelled as association lists in insertion order.
-/

namespace RouteLeaks

abbrev Series := List ℚ

abbrev Store := List (ℕ × Series)

/-- detect_route_leaks.py line 54. -/
def MIN_NB_DAYS : ℕ := 31

/-- detect_route_leaks.py line 55. -/
def MAX_NB_ZERO_TO_RM : ℕ := 5

/-- Python `data[i]` for the in-range accesses of the peak finder. -/
def getD (data : List ℚ) (i : ℕ) : ℚ := data.getD i 0

/-- First binding of a key in an association list (Python dict access). -/
def alookup {β : Type} (a : ℕ) : List (ℕ × β) → Option β
  | [] => none
  | (k, v) :: rest => if k = a then some v else alookup a rest

/-- Key set of an association list (Python dict keys). -/
def keys {β : Type} (l : List (ℕ × β)) : List ℕ := l.map Prod.fst

/-- Python `sum(xs)/len(xs)` (division by zero yields 0 in ℚ; all callers
guard against the empty list). -/
def mean (xs : List ℚ) : ℚ := xs.sum / (xs.length : ℚ)

/-- Population variance, i.e. `np.std(xs) ^ 2` (divisor = N). -/
def pvariance (xs : List ℚ) : ℚ :=
  (xs.map (fun x => (x - mean xs) ^ 2)).sum / (xs.length : ℚ)

/-- `[elt for i, elt in enumerate(data) if i not in indexes]`. -/
def removeIndexes (data : List ℚ) (idxs : List ℕ) : List ℚ :=
  (data.enum.filter (fun p => decide (p.1 ∉ idxs))).map Prod.snd

/-! ## FindPeaks (detect_route_leaks.py lines 58-322) -/

/-- `FindPeaks._find_mock_value` (lines 113-117). -/
def find_mock_value (pmv hint avg : ℚ) : ℚ :=
  if |hint - avg| < pmv / 2 then hint else avg

/-- The in-place replacement loop of `FindPeaks.speculate_missing_values`
(lines 146-163): `enumerate` reads the live list, so replacements at
earlier indices are visible when later zeros are treated. -/
def speculateGo (pmv avg : ℚ) : ℕ → ℕ → List ℚ → List ℚ
  | _, 0, data => data
  | i, fuel + 1, data =>
    let data' :=
      if getD data i = 0 then
        if i = 0 then
          data.set i (find_mock_value pmv (getD data (i + 1)) avg)
        else if i = data.length - 1 then
          data.set i (find_mock_value pmv (getD data (i - 1)) avg)
        else
          data.set i ((find_mock_value pmv (getD data (i - 1)) avg
            + find_mock_value pmv (getD data (i + 1)) avg) / 2)
      else data
    speculateGo pmv avg (i + 1) fuel data'

/-- `FindPeaks.speculate_missing_values` (lines 119-163). -/
def speculate_missing_values (pmv : ℚ) (data : List ℚ) : List ℚ :=
  if 0 < data.count 0 ∧ data.count 0 < MAX_NB_ZERO_TO_RM then
    let dataWithNoZero := data.filter (fun e => decide (e ≠ 0))
    let avg := dataWithNoZero.sum / (dataWithNoZero.length : ℚ)
    speculateGo pmv avg 0 data.length data
  else data

/-- `FindPeaks._is_big_enough` (lines 199-201). -/
def is_big_enough (pmv up down : ℚ) : Bool :=
  decide (pmv < up) && decide (pmv < -down)

/-- `FindPeaks._is_close_to_abs_max` (lines 209-211). -/
def is_close_to_abs_max (psim maxValue v : ℚ) : Bool :=
  decide (psim * maxValue ≤ v)

/-- The main loop of `FindPeaks.get_big_maxes` (lines 180-191), threading
`prev_variation` through the iterations exactly as the source does. -/
def bigMaxLoop (data : List ℚ) (pmv psim maxv : ℚ) :
    List ℕ → ℚ → List ℕ
  | [], _ => []
  | i :: rest, prevVariation =>
    let prevVal := getD data (i - 1)
    let curVal := getD data i
    let nextVal := getD data (i + 1)
    let curVariation := nextVal - curVal
    if decide (prevVal < curVal) && decide (nextVal < curVal)
        && is_big_enough pmv prevVariation curVariation
        && is_close_to_abs_max psim maxv curVal then
      i :: bigMaxLoop data pmv psim maxv rest curVariation
    else
      bigMaxLoop data pmv psim maxv rest curVariation

/-- The candidate peaks collected by the first loop of `get_big_maxes`:
indices `xrange(1, data_len - 1)` with `prev_variation` seeded with
`data[1] - data[0]` (line 180). -/
def candidates (data : List ℚ) (pmv psim maxv : ℚ) : List ℕ :=
  bigMaxLoop data pmv psim maxv (List.range' 1 (data.length - 2))
    (getD data 1 - getD data 0)

/-- `FindPeaks._has_few_enough_peaks` (lines 203-207). -/
def has_few_enough_peaks (data : List ℚ) (mnp : ℚ) (localMaxesIndexes : List ℕ)
    (index : ℕ) : Bool :=
  decide (((localMaxesIndexes.filter
    (fun elt => decide (getD data index ≤ getD data elt))).length : ℚ) ≤ mnp)

/-- Line 193: `big_maxes = [i for i in big_maxes if self._has_few_enough_peaks(i, big_maxes)]`. -/
def crowdFiltered (data : List ℚ) (mnp : ℚ) (cands : List ℕ) : List ℕ :=
  cands.filter (has_few_enough_peaks data mnp cands)

/-- `FindPeaks._check_std_variation` (lines 213-227): `smooth_std < std * percent_std`
stated on variances (see the header comment). -/
def check_std_variation (data : List ℚ) (idxs : List ℕ) (pstd : ℚ) : Bool :=
  decide (0 ≤ pstd)
    && decide (pvariance (removeIndexes data idxs) < pstd ^ 2 * pvariance data)

/-- `FindPeaks.get_big_maxes` (lines 165-197) as a pure function of the
series and the four parameters (`max_value` is `max(data)` from `__init__`).
If the standard-deviation test fails on a non-empty filtered list, the
initial empty `self.big_maxes` is returned. -/
def theBigMaxes (data : List ℚ) (pmv mnp psim pstd : ℚ) : List ℕ :=
  let maxv := (data.max?).getD 0
  let kept := crowdFiltered data mnp (candidates data pmv psim maxv)
  if kept.isEmpty || check_std_variation data kept pstd then kept else []

/-- `get_big_maxes` with its failure mode: `data[1] - data[0]` (line 180)
raises IndexError when the series has fewer than two elements. -/
def get_big_maxes (data : List ℚ) (pmv mnp psim pstd : ℚ) : Option (List ℕ) :=
  if data.length < 2 then none else some (theBigMaxes data pmv mnp psim pstd)

/-! ## _PyFindRouteLeaks (detect_route_leaks.py lines 612-724) -/

/-- The five heuristics parameters (`_BaseFindRouteLeaks._params`, lines 493-497). -/
structure Params where
  pfx_peak_min_value : ℚ
  cfl_peak_min_value : ℚ
  max_nb_peaks : ℚ
  percent_similarity : ℚ
  percent_std : ℚ
deriving DecidableEq

/-- The defaults of `FindRouteLeaks.__init__` (lines 352-353). -/
def defaultParams : Params :=
  { pfx_peak_min_value := 10, cfl_peak_min_value := 5, max_nb_peaks := 2,
    percent_similarity := 9/10, percent_std := 9/10 }

/-- One result entry of `get_route_leaks` (lines 669-671), with
`start_date = None` so leak day identifiers are raw indices. -/
structure LeakRecord where
  leaks : List ℕ
  pfx_data : Series
  cfl_data : Series
deriving DecidableEq

/-- `dupl_ases[base_asn] = dupl_ases.get(base_asn, []); dupl_ases[base_asn].append(asn)`
(lines 641-642). -/
def duplAdd (d : List (ℕ × List ℕ)) (base asn : ℕ) : List (ℕ × List ℕ) :=
  match alookup base d with
  | some _ => d.map (fun p => if p.1 = base then (p.1, p.2 ++ [asn]) else p)
  | none => d ++ [(base, [asn])]

/-- Series-keyed reverse lookup used by `_fill_duplicates_struct` (line 638). -/
def slookup (s : Series) : List (Series × ℕ) → Option ℕ
  | [] => none
  | (k, v) :: rest => if k = s then some v else slookup s rest

/-- `_PyFindRouteLeaks._fill_duplicates_struct` (lines 631-644): keep the
first AS owning each distinct series, record later owners as duplicates of
that first AS. Returns (unique store, duplicates map). -/
def fillDup : Store → List (Series × ℕ) → Store × List (ℕ × List ℕ)
  | [], _ => ([], [])
  | (asn, s) :: rest, revData =>
    match slookup s revData with
    | some base =>
      let r := fillDup rest revData
      (r.1, duplAdd r.2 base asn)
    | none =>
      let r := fillDup rest ((s, asn) :: revData)
      ((asn, s) :: r.1, r.2)

/-- `_PyFindRouteLeaks._get_ases_with_peak` (lines 694-713).
`FindPeaks.__init__` evaluates `max(data)` (ValueError on an empty series,
hence `Option`); `get_big_maxes` only runs when `max_value >= peak_min_value`. -/
def getAsesWithPeak (pmv mnp psim pstd : ℚ) :
    Store → Option (List (ℕ × List ℕ))
  | [] => some []
  | (asn, data) :: rest =>
    match data.max? with
    | none => none
    | some maxv =>
      match getAsesWithPeak pmv mnp psim pstd rest with
      | none => none
      | some restPeaks =>
        if pmv ≤ maxv then
          match get_big_maxes data pmv mnp psim pstd with
          | none => none
          | some bm =>
            if bm.isEmpty then some restPeaks else some ((asn, bm) :: restPeaks)
        else some restPeaks

/-- `_PyFindRouteLeaks._put_duplicates_back_to_peaks` (lines 715-724):
every AS coalesced onto a base AS receives the base's peak list. -/
def putDuplicatesBack (peaks : List (ℕ × List ℕ)) (dupl : List (ℕ × List ℕ)) :
    List (ℕ × List ℕ) :=
  peaks ++ (peaks.map (fun p =>
    ((alookup p.1 dupl).getD []).map (fun d => (d, p.2)))).flatten

/-- One iteration of the kwargs loop (lines 655-659):
`self._params[param_name] = float(param_value)` when the name is one of the
five parameters, unknown names only logged. -/
def applyKwarg (q : Params) (kv : String × ℚ) : Params :=
  if kv.1 = "pfx_peak_min_value" then { q with pfx_peak_min_value := kv.2 }
  else if kv.1 = "cfl_peak_min_value" then { q with cfl_peak_min_value := kv.2 }
  else if kv.1 = "max_nb_peaks" then { q with max_nb_peaks := kv.2 }
  else if kv.1 = "percent_similarity" then { q with percent_similarity := kv.2 }
  else if kv.1 = "percent_std" then { q with percent_std := kv.2 }
  else q

/-- Lines 655-659: `for param_name, param_value in kwargs.iteritems(): ...`. -/
def applyKwargs (p : Params) (kwargs : List (String × ℚ)) : Params :=
  kwargs.foldl applyKwarg p

/-- Lines 664-673: intersect the conflict peaks with the prefix peaks.
`set(cfl_peaks[asn]) & set(pfx_peaks[asn])` is modelled by filtering the
conflict peak list (both lists are duplicate-free index lists, so only the
iteration order of the Python set differs). -/
def intersectPeaks (pfx cfl : Store) (pfxPeaks : List (ℕ × List ℕ)) :
    List (ℕ × List ℕ) → List (ℕ × LeakRecord)
  | [] => []
  | (asn, cpk) :: rest =>
    match alookup asn pfxPeaks with
    | some ppk =>
      let leaks := cpk.filter (fun i => decide (i ∈ ppk))
      if leaks.isEmpty then intersectPeaks pfx cfl pfxPeaks rest
      else (asn, { leaks := leaks, pfx_data := (alookup asn pfx).getD [],
                   cfl_data := (alookup asn cfl).getD [] })
        :: intersectPeaks pfx cfl pfxPeaks rest
    | none => intersectPeaks pfx cfl pfxPeaks rest

/-- `_PyFindRouteLeaks.get_route_leaks` (lines 646-673), parameterised by
the length guard threshold (`MIN_NB_DAYS` at the default).  Returns the
result (`none` models an uncaught exception: `self.pfx_data.values()[0]`
on an empty store, or `FindPeaks` on degenerate series) together with the
parameter mapping as it stands after the call (the source mutates
`self._params` in place). -/
def getRouteLeaks (minNbDays : ℕ) (pfx cfl : Store) (p : Params)
    (kwargs : List (String × ℚ)) : Option (List (ℕ × LeakRecord)) × Params :=
  match pfx.head? with
  | none => (none, p)
  | some fstEntry =>
    if fstEntry.2.length < minNbDays then (some [], p)
    else
      let q := applyKwargs p kwargs
      let pfxD := fillDup pfx []
      let cflD := fillDup cfl []
      match getAsesWithPeak q.pfx_peak_min_value q.max_nb_peaks
              q.percent_similarity q.percent_std pfxD.1,
            getAsesWithPeak q.cfl_peak_min_value q.max_nb_peaks
              q.percent_similarity q.percent_std cflD.1 with
      | some pfxPeaks0, some cflPeaks0 =>
        let pfxPeaks := putDuplicatesBack pfxPeaks0 pfxD.2
        let cflPeaks := putDuplicatesBack cflPeaks0 cflD.2
        (some (intersectPeaks pfx cfl pfxPeaks cflPeaks), q)
      | _, _ => (none, q)

/-! ## Lemmas about the candidate loop -/

/-- Spec-side candidate set (for comparison with `candidates`): index
`i ∈ [1, len − 2]` is accepted when it is a local maximum, the symmetric
magnitude rule `series[i] − series[i−1] > peak_min_value ∧
series[i] − series[i+1] > peak_min_value` holds, and the closeness rule
holds.  Written from the spec's words (section 4.B rules 1-3). -/
def specSymmetricCandidates (data : List ℚ) (pmv psim maxv : ℚ) : List ℕ :=
  (List.range' 1 (data.length - 2)).filter (fun i =>
    decide (getD data (i - 1) < getD data i)
      && decide (getD data (i + 1) < getD data i)
      && (decide (pmv < getD data i - getD data (i - 1))
        && decide (pmv < getD data i - getD data (i + 1)))
      && is_close_to_abs_max psim maxv (getD data i))

theorem bigMaxLoop_range' (data : List ℚ) (pmv psim maxv : ℚ) :
    ∀ (n a : ℕ),
      bigMaxLoop data pmv psim maxv (List.range' a n)
          (getD data a - getD data (a - 1)) =
        (List.range' a n).filter (fun i =>
          decide (getD data (i - 1) < getD data i)
            && decide (getD data (i + 1) < getD data i)
            && (decide (pmv < getD data i - getD data (i - 1))
              && decide (pmv < getD data i - getD data (i + 1)))
            && is_close_to_abs_max psim maxv (getD data i)) := by
  intro n
  induction n with
  | zero => intro a; simp [bigMaxLoop]
  | succ m ih =>
    intro a
    rw [List.range'_succ]
    have hseed : getD data (a + 1) - getD data a
        = getD data (a + 1) - getD data (a + 1 - 1) := by
      simp
    have hneg : (decide (pmv < -(getD data (a + 1) - getD data a)))
        = decide (pmv < getD data a - getD data (a + 1)) := by
      rw [neg_sub]
    simp only [bigMaxLoop, is_big_enough, List.filter_cons, hneg]
    rw [hseed, ih (a + 1)]

/-- C5: at every interior index `i ∈ [1, len − 2]`, including `i = 1`, the
candidate loop of `get_big_maxes` (threading `prev_variation`, seeded with
`data[1] − data[0]`) accepts `i` under the magnitude rule exactly when
`series[i] − series[i−1] > peak_min_value` and
`series[i] − series[i+1] > peak_min_value`: the threaded loop equals the
spec's symmetric rule filter. -/
theorem candidates_eq_specSymmetricCandidates
    (data : List ℚ) (pmv psim maxv : ℚ) :
    candidates data pmv psim maxv = specSymmetricCandidates data pmv psim maxv := by
  unfold candidates specSymmetricCandidates
  have h0 : getD data 1 - getD data 0 = getD data 1 - getD data (1 - 1) := by norm_num
  rw [h0, bigMaxLoop_range' data pmv psim maxv (data.length - 2) 1]

theorem mem_bigMaxLoop (data : List ℚ) (pmv psim maxv : ℚ) :
    ∀ (idxs : List ℕ) (seed : ℚ) (i : ℕ),
      i ∈ bigMaxLoop data pmv psim maxv idxs seed → i ∈ idxs := by
  intro idxs
  induction idxs with
  | nil => intro seed i h; simp [bigMaxLoop] at h
  | cons j rest ih =>
    intro seed i h
    simp only [bigMaxLoop] at h
    split at h
    · rcases List.mem_cons.mp h with h1 | h1
      · exact h1 ▸ List.mem_cons_self j rest
      · exact List.mem_cons_of_mem j (ih _ i h1)
    · exact List.mem_cons_of_mem j (ih _ i h)

theorem mem_candidates_bounds (data : List ℚ) (pmv psim maxv : ℚ) (i : ℕ)
    (h : i ∈ candidates data pmv psim maxv) : 0 < i ∧ i + 1 < data.length := by
  have hr := mem_bigMaxLoop data pmv psim maxv _ _ i h
  have := List.mem_range'_1.mp hr
  omega

theorem mem_theBigMaxes_candidates (data : List ℚ) (pmv mnp psim pstd : ℚ) (i : ℕ)
    (h : i ∈ theBigMaxes data pmv mnp psim pstd) :
    i ∈ candidates data pmv psim ((data.max?).getD 0) := by
  simp only [theBigMaxes] at h
  split at h
  · exact List.mem_of_mem_filter h
  · simp at h

theorem mem_theBigMaxes_bounds (data : List ℚ) (pmv mnp psim pstd : ℚ) (i : ℕ)
    (h : i ∈ theBigMaxes data pmv mnp psim pstd) : 0 < i ∧ i + 1 < data.length :=
  mem_candidates_bounds data pmv psim _ i (mem_theBigMaxes_candidates data pmv mnp psim pstd i h)

/-! ## Claim C6: the smoother is a no-op off the replacement branch -/

/-- C6: whenever the count `z` of zero values of the series is `z = 0` or
`z ≥ MAX_NB_ZERO_TO_RM`, `speculate_missing_values` returns the series
unchanged, and is therefore idempotent on every such series. -/
theorem speculate_missing_values_noop (pmv : ℚ) (data : List ℚ)
    (h : data.count 0 = 0 ∨ MAX_NB_ZERO_TO_RM ≤ data.count 0) :
    speculate_missing_values pmv data = data ∧
      speculate_missing_values pmv (speculate_missing_values pmv data)
        = speculate_missing_values pmv data := by
  have hcond : ¬ (0 < data.count 0 ∧ data.count 0 < MAX_NB_ZERO_TO_RM) := by
    rcases h with h | h <;> omega
  have hid : speculate_missing_values pmv data = data := by
    unfold speculate_missing_values
    exact if_neg hcond
  exact ⟨hid, by rw [hid, hid]⟩

/-- Witness for C6 at the all-zero series `[0,0,0,0,0]` (five zeros, so the
zero count reaches `MAX_NB_ZERO_TO_RM`). -/
theorem speculate_missing_values_noop_witness :
    (List.count (0 : ℚ) [0, 0, 0, 0, 0] = 0
        ∨ MAX_NB_ZERO_TO_RM ≤ List.count (0 : ℚ) [0, 0, 0, 0, 0]) ∧
      speculate_missing_values 10 [0, 0, 0, 0, 0] = [0, 0, 0, 0, 0] ∧
      speculate_missing_values 10 (speculate_missing_values 10 [0, 0, 0, 0, 0])
        = speculate_missing_values 10 [0, 0, 0, 0, 0] := by
  have h : List.count (0 : ℚ) [0, 0, 0, 0, 0] = 0
      ∨ MAX_NB_ZERO_TO_RM ≤ List.count (0 : ℚ) [0, 0, 0, 0, 0] :=
    Or.inr (of_decide_eq_true (by with_unfolding_all rfl))
  exact ⟨h, (speculate_missing_values_noop 10 _ h).1,
    (speculate_missing_values_noop 10 _ h).2⟩

/-! ## Claim C4: the crowding rule -/

/-- C4 (counterexample): on the series `[0,25,0,25,0,25,0]` with the default
parameters (`max_nb_peaks = 2`, `peak_min_value = 10`,
`percent_similarity = 0.9`), index 1 is a candidate, the crowd filter keeps
nothing (each of the three equal-valued candidates counts itself, giving
3 > 2), yet zero OTHER KEPT indices have value ≥ series[1], so the claimed
"kept iff at most max_nb_peaks other kept indices have values ≥ series[i]"
biconditional is false at index 1. -/
theorem crowding_claim_counterexample :
    1 ∈ candidates [0, 25, 0, 25, 0, 25, 0] 10 (9/10) 25 ∧
      ¬ (1 ∈ crowdFiltered [0, 25, 0, 25, 0, 25, 0] 2
            (candidates [0, 25, 0, 25, 0, 25, 0] 10 (9/10) 25) ↔
          (((crowdFiltered [0, 25, 0, 25, 0, 25, 0] 2
                (candidates [0, 25, 0, 25, 0, 25, 0] 10 (9/10) 25)).filter
              (fun j => decide (j ≠ 1)
                && decide (getD [0, 25, 0, 25, 0, 25, 0] 1
                  ≤ getD [0, 25, 0, 25, 0, 25, 0] j))).length : ℚ) ≤ 2) :=
  of_decide_eq_true (by with_unfolding_all rfl)

theorem filter_ge_length_split (data : List ℚ) (i : ℕ) :
    ∀ (cands : List ℕ), cands.Nodup → i ∈ cands →
      (cands.filter (fun elt => decide (getD data i ≤ getD data elt))).length
        = (cands.filter (fun j => decide (j ≠ i)
            && decide (getD data i ≤ getD data j))).length + 1 := by
  intro cands
  induction cands with
  | nil => intro _ h; simp at h
  | cons a t ih =>
    intro hnd hmem
    have hnd' : t.Nodup := (List.nodup_cons.mp hnd).2
    have hnotmem : a ∉ t := (List.nodup_cons.mp hnd).1
    rcases List.mem_cons.mp hmem with rfl | hit
    · have e1 : (i :: t).filter (fun elt => decide (getD data i ≤ getD data elt))
          = i :: t.filter (fun elt => decide (getD data i ≤ getD data elt)) := by
        rw [List.filter_cons]; simp
      have e2 : (i :: t).filter (fun j => decide (j ≠ i)
            && decide (getD data i ≤ getD data j))
          = t.filter (fun j => decide (j ≠ i)
            && decide (getD data i ≤ getD data j)) := by
        rw [List.filter_cons]; simp
      have hcong : t.filter (fun j => decide (j ≠ i)
            && decide (getD data i ≤ getD data j))
          = t.filter (fun elt => decide (getD data i ≤ getD data elt)) := by
        apply List.filter_congr
        intro j hj
        have hja : j ≠ i := fun hji => hnotmem (hji ▸ hj)
        simp [hja]
      rw [e1, e2, hcong, List.length_cons]
    · have hne : a ≠ i := fun hai => hnotmem (hai ▸ hit)
      by_cases hga : getD data i ≤ getD data a
      · have e1 : (a :: t).filter (fun elt => decide (getD data i ≤ getD data elt))
            = a :: t.filter (fun elt => decide (getD data i ≤ getD data elt)) := by
          rw [List.filter_cons]; simp [hga]
        have e2 : (a :: t).filter (fun j => decide (j ≠ i)
              && decide (getD data i ≤ getD data j))
            = a :: t.filter (fun j => decide (j ≠ i)
              && decide (getD data i ≤ getD data j)) := by
          rw [List.filter_cons]; simp [hne, hga]
        rw [e1, e2, List.length_cons, List.length_cons, ih hnd' hit]
      · have e1 : (a :: t).filter (fun elt => decide (getD data i ≤ getD data elt))
            = t.filter (fun elt => decide (getD data i ≤ getD data elt)) := by
          rw [List.filter_cons]; simp [hga]
        have e2 : (a :: t).filter (fun j => decide (j ≠ i)
              && decide (getD data i ≤ getD data j))
            = t.filter (fun j => decide (j ≠ i)
              && decide (getD data i ≤ getD data j)) := by
          rw [List.filter_cons]; simp [hga]
        rw [e1, e2, ih hnd' hit]

/-- C4 (amended): a candidate index `i` is kept by the crowding rule iff at
most `max_nb_peaks − 1` OTHER CANDIDATE indices (pre-filter, not kept ones)
have series values ≥ series[i]; equivalently the source keeps `i` iff the
count of candidates with value ≥ series[i], `i` itself included, is at most
`max_nb_peaks`. -/
theorem crowdFiltered_mem_iff (data : List ℚ) (mnp : ℚ) (cands : List ℕ)
    (hnd : cands.Nodup) (i : ℕ) (hi : i ∈ cands) :
    i ∈ crowdFiltered data mnp cands ↔
      (((cands.filter (fun j => decide (j ≠ i)
          && decide (getD data i ≤ getD data j))).length : ℚ) ≤ mnp - 1) := by
  unfold crowdFiltered
  rw [List.mem_filter]
  unfold has_few_enough_peaks
  rw [filter_ge_length_split data i cands hnd hi]
  constructor
  · intro ⟨_, hfew⟩
    have := of_decide_eq_true hfew
    push_cast at this ⊢
    linarith
  · intro hle
    refine ⟨hi, decide_eq_true ?_⟩
    push_cast at hle ⊢
    linarith

/-- Witness for the amended C4 on the single-candidate series
`[5,5,25,5,5,5]`: the lone candidate 2 is kept and has zero other
candidates of value ≥ 25 (and 0 ≤ max_nb_peaks − 1 = 1). -/
theorem crowdFiltered_mem_iff_witness :
    (candidates [5, 5, 25, 5, 5, 5] 10 (9/10) 25).Nodup ∧
      2 ∈ candidates [5, 5, 25, 5, 5, 5] 10 (9/10) 25 ∧
      (2 ∈ crowdFiltered [5, 5, 25, 5, 5, 5] 2
          (candidates [5, 5, 25, 5, 5, 5] 10 (9/10) 25) ↔
        ((((candidates [5, 5, 25, 5, 5, 5] 10 (9/10) 25).filter
            (fun j => decide (j ≠ 2)
              && decide (getD [5, 5, 25, 5, 5, 5] 2
                ≤ getD [5, 5, 25, 5, 5, 5] j))).length : ℚ) ≤ 2 - 1)) := by
  have hnd : (candidates [5, 5, 25, 5, 5, 5] 10 (9/10) 25).Nodup :=
    of_decide_eq_true (by with_unfolding_all rfl)
  have hmem : 2 ∈ candidates [5, 5, 25, 5, 5, 5] 10 (9/10) 25 :=
    of_decide_eq_true (by with_unfolding_all rfl)
  exact ⟨hnd, hmem,
    crowdFiltered_mem_iff [5, 5, 25, 5, 5, 5] 2 _ hnd 2 hmem⟩

/-! ## Association list lemmas -/

theorem alookup_some_mem {β : Type} (a : ℕ) (v : β) :
    ∀ l : List (ℕ × β), alookup a l = some v → (a, v) ∈ l := by
  intro l
  induction l with
  | nil => intro h; simp [alookup] at h
  | cons p rest ih =>
    obtain ⟨k, w⟩ := p
    intro h
    simp only [alookup] at h
    by_cases hk : k = a
    · rw [if_pos hk] at h
      obtain rfl := hk
      obtain rfl := Option.some_inj.mp h
      exact List.mem_cons_self _ _
    · rw [if_neg hk] at h
      exact List.mem_cons_of_mem _ (ih h)

theorem mem_keys_of_mem {β : Type} {a : ℕ} {v : β} {l : List (ℕ × β)}
    (h : (a, v) ∈ l) : a ∈ keys l :=
  List.mem_map.mpr ⟨(a, v), h, rfl⟩

theorem alookup_eq_some_of_mem_nodup {β : Type} {a : ℕ} {v : β} :
    ∀ {l : List (ℕ × β)}, (keys l).Nodup → (a, v) ∈ l → alookup a l = some v := by
  intro l
  induction l with
  | nil => intro _ h; simp at h
  | cons p rest ih =>
    obtain ⟨k, w⟩ := p
    intro hnd hmem
    have hk : k ∉ keys rest := by
      have := List.nodup_cons.mp hnd
      simpa [keys] using this.1
    rcases List.mem_cons.mp hmem with h1 | h1
    · obtain ⟨rfl, rfl⟩ := Prod.mk.injEq .. ▸ h1
      simp [alookup]
    · have hka : k ≠ a := by
        rintro rfl
        exact hk (mem_keys_of_mem h1)
      simp only [alookup, if_neg hka]
      exact ih (List.nodup_cons.mp hnd).2 h1

theorem mem_pair_unique {β : Type} {a : ℕ} {v v' : β} {l : List (ℕ × β)}
    (hnd : (keys l).Nodup) (h : (a, v) ∈ l) (h' : (a, v') ∈ l) : v = v' := by
  have e1 := alookup_eq_some_of_mem_nodup hnd h
  have e2 := alookup_eq_some_of_mem_nodup hnd h'
  exact Option.some_inj.mp (e1 ▸ e2)

theorem slookup_some_mem (s : Series) (b : ℕ) :
    ∀ rev : List (Series × ℕ), slookup s rev = some b → (s, b) ∈ rev := by
  intro rev
  induction rev with
  | nil => intro h; simp [slookup] at h
  | cons p rest ih =>
    obtain ⟨k, w⟩ := p
    intro h
    simp only [slookup] at h
    by_cases hk : k = s
    · rw [if_pos hk] at h
      obtain rfl := hk
      obtain rfl := Option.some_inj.mp h
      exact List.mem_cons_self _ _
    · rw [if_neg hk] at h
      exact List.mem_cons_of_mem _ (ih h)

/-! ## Duplicate-coalescing lemmas -/

theorem mem_duplAdd {d : List (ℕ × List ℕ)} {base asn b : ℕ} {l : List ℕ}
    (h : (b, l) ∈ duplAdd d base asn) {a : ℕ} (ha : a ∈ l) :
    (∃ l0, (b, l0) ∈ d ∧ a ∈ l0) ∨ (b = base ∧ a = asn) := by
  unfold duplAdd at h
  split at h
  · obtain ⟨p, hp, hpe⟩ := List.mem_map.mp h
    by_cases hpb : p.1 = base
    · rw [if_pos hpb] at hpe
      have hb : p.1 = b := congrArg Prod.fst hpe
      have hl : p.2 ++ [asn] = l := congrArg Prod.snd hpe
      rcases List.mem_append.mp (hl ▸ ha) with h1 | h1
      · exact Or.inl ⟨p.2, by rw [← hb, Prod.mk.eta]; exact hp, h1⟩
      · right
        refine ⟨by rw [← hb, hpb], ?_⟩
        simpa using h1
    · rw [if_neg hpb] at hpe
      exact Or.inl ⟨l, hpe ▸ hp, ha⟩
  · rcases List.mem_append.mp h with h1 | h1
    · exact Or.inl ⟨l, h1, ha⟩
    · have h2 : (b, l) = (base, [asn]) := by simpa using h1
      have hb : b = base := congrArg Prod.fst h2
      have hl : l = [asn] := congrArg Prod.snd h2
      right
      exact ⟨hb, by simpa [hl] using ha⟩

theorem fillDup_uniq_subset :
    ∀ (store : Store) (rev : List (Series × ℕ)) (x : ℕ × Series),
      x ∈ (fillDup store rev).1 → x ∈ store := by
  intro store
  induction store with
  | nil => intro rev x hx; simp [fillDup] at hx
  | cons p rest ih =>
    obtain ⟨asn, s⟩ := p
    intro rev x hx
    simp only [fillDup] at hx
    split at hx
    · exact List.mem_cons_of_mem _ (ih rev x hx)
    · rcases List.mem_cons.mp hx with h1 | h1
      · exact h1 ▸ List.mem_cons_self _ _
      · exact List.mem_cons_of_mem _ (ih _ x h1)

theorem fillDup_dupl_mem :
    ∀ (store : Store) (rev : List (Series × ℕ)) (b : ℕ) (l : List ℕ) (a : ℕ),
      (b, l) ∈ (fillDup store rev).2 → a ∈ l →
      ∃ s, (a, s) ∈ store ∧ ((s, b) ∈ rev ∨ (b, s) ∈ store) := by
  intro store
  induction store with
  | nil => intro rev b l a h _; simp [fillDup] at h
  | cons p rest ih =>
    obtain ⟨asn, s0⟩ := p
    intro rev b l a h ha
    simp only [fillDup] at h
    split at h
    · rename_i base heq
      rcases mem_duplAdd h ha with ⟨l0, hl0, hal0⟩ | ⟨rfl, rfl⟩
      · obtain ⟨s, hs, hd⟩ := ih rev b l0 a hl0 hal0
        exact ⟨s, List.mem_cons_of_mem _ hs, hd.imp id (List.mem_cons_of_mem _)⟩
      · exact ⟨s0, List.mem_cons_self _ _, Or.inl (slookup_some_mem _ _ _ heq)⟩
    · obtain ⟨s, hs, hd⟩ := ih ((s0, asn) :: rev) b l a h ha
      refine ⟨s, List.mem_cons_of_mem _ hs, ?_⟩
      rcases hd with hd | hd
      · rcases List.mem_cons.mp hd with h1 | h1
        · have hss : s = s0 := congrArg Prod.fst h1
          have hba : b = asn := congrArg Prod.snd h1
          subst hss; subst hba
          exact Or.inr (List.mem_cons_self _ _)
        · exact Or.inl h1
      · exact Or.inr (List.mem_cons_of_mem _ hd)

/-- At the top level (`rev = []`): a duplicate AS and its base AS own the
same series in the original store. -/
theorem fillDup_dupl_mem_nil {store : Store} {b : ℕ} {l : List ℕ} {a : ℕ}
    (h : (b, l) ∈ (fillDup store []).2) (ha : a ∈ l) :
    ∃ s, (a, s) ∈ store ∧ (b, s) ∈ store := by
  obtain ⟨s, hs, hd⟩ := fillDup_dupl_mem store [] b l a h ha
  rcases hd with hd | hd
  · simp at hd
  · exact ⟨s, hs, hd⟩

/-! ## Peak-collection lemmas -/

theorem getAsesWithPeak_mem (pmv mnp psim pstd : ℚ) :
    ∀ (store : Store) (m : List (ℕ × List ℕ)),
      getAsesWithPeak pmv mnp psim pstd store = some m →
      ∀ a pk, (a, pk) ∈ m →
        ∃ s, (a, s) ∈ store ∧ pk = theBigMaxes s pmv mnp psim pstd ∧ pk ≠ [] := by
  intro store
  induction store with
  | nil =>
    intro m hm a pk hpk
    simp only [getAsesWithPeak] at hm
    obtain rfl := Option.some_inj.mp hm
    simp at hpk
  | cons p rest ih =>
    obtain ⟨asn, data⟩ := p
    intro m hm a pk hpk
    simp only [getAsesWithPeak] at hm
    split at hm
    · exact absurd hm (by simp)
    · split at hm
      · exact absurd hm (by simp)
      · rename_i restPeaks hrest
        split at hm
        · split at hm
          · exact absurd hm (by simp)
          · rename_i bm hbm
            split at hm
            · obtain rfl := Option.some_inj.mp hm
              obtain ⟨s, hs, h1, h2⟩ := ih restPeaks hrest a pk hpk
              exact ⟨s, List.mem_cons_of_mem _ hs, h1, h2⟩
            · rename_i hbmne
              obtain rfl := Option.some_inj.mp hm
              rcases List.mem_cons.mp hpk with h1 | h1
              · have ha : a = asn := congrArg Prod.fst h1
                have hpkbm : pk = bm := congrArg Prod.snd h1
                subst ha; subst hpkbm
                refine ⟨data, List.mem_cons_self _ _, ?_, ?_⟩
                · unfold get_big_maxes at hbm
                  split at hbm
                  · exact absurd hbm (by simp)
                  · exact (Option.some_inj.mp hbm).symm
                · intro hnil
                  exact hbmne (by simp [hnil])
              · obtain ⟨s, hs, h2, h3⟩ := ih restPeaks hrest a pk h1
                exact ⟨s, List.mem_cons_of_mem _ hs, h2, h3⟩
        · obtain rfl := Option.some_inj.mp hm
          obtain ⟨s, hs, h1, h2⟩ := ih restPeaks hrest a pk hpk
          exact ⟨s, List.mem_cons_of_mem _ hs, h1, h2⟩

theorem mem_putDuplicatesBack {peaks dupl : List (ℕ × List ℕ)} {a : ℕ}
    {pk : List ℕ} (h : (a, pk) ∈ putDuplicatesBack peaks dupl) :
    (a, pk) ∈ peaks ∨ ∃ b, (b, pk) ∈ peaks ∧ a ∈ (alookup b dupl).getD [] := by
  unfold putDuplicatesBack at h
  rcases List.mem_append.mp h with h1 | h1
  · exact Or.inl h1
  · right
    obtain ⟨l, hl, hal⟩ := List.mem_flatten.mp h1
    obtain ⟨p, hp, rfl⟩ := List.mem_map.mp hl
    obtain ⟨d, hd, hde⟩ := List.mem_map.mp hal
    have hda : d = a := congrArg Prod.fst hde
    have hppk : p.2 = pk := congrArg Prod.snd hde
    subst hda
    exact ⟨p.1, by rwa [← hppk, Prod.mk.eta], hd⟩

/-- The full prefix-side (or conflict-side) peak pipeline: deduplicate,
collect peaks on the unique store, put duplicates back.  Any resulting
entry `(a, pk)` is owned by an AS of the original store, and — when the
store keys are unique — `pk` is exactly `theBigMaxes` of a's own series. -/
theorem pipeline_peaks_spec (pmv mnp psim pstd : ℚ) (store : Store)
    (peaks0 : List (ℕ × List ℕ)) (hnd : (keys store).Nodup)
    (hsome : getAsesWithPeak pmv mnp psim pstd (fillDup store []).1 = some peaks0)
    (a : ℕ) (pk : List ℕ)
    (h : (a, pk) ∈ putDuplicatesBack peaks0 (fillDup store []).2) :
    ∃ s, (a, s) ∈ store ∧ pk = theBigMaxes s pmv mnp psim pstd ∧ pk ≠ [] := by
  rcases mem_putDuplicatesBack h with h1 | ⟨b, hb, hab⟩
  · obtain ⟨s, hs, hpk, hne⟩ := getAsesWithPeak_mem pmv mnp psim pstd _ _ hsome a pk h1
    exact ⟨s, fillDup_uniq_subset store [] _ hs, hpk, hne⟩
  · cases halb : alookup b (fillDup store []).2 with
    | none => rw [halb] at hab; simp at hab
    | some l =>
      rw [halb] at hab
      simp only [Option.getD_some] at hab
      have hbl := alookup_some_mem b l _ halb
      obtain ⟨s, has, hbs⟩ := fillDup_dupl_mem_nil hbl hab
      obtain ⟨sb, hsb, hpk, hne⟩ :=
        getAsesWithPeak_mem pmv mnp psim pstd _ _ hsome b pk hb
      have hsb' : (b, sb) ∈ store := fillDup_uniq_subset store [] _ hsb
      have hsbs : sb = s := mem_pair_unique hnd hsb' hbs
      exact ⟨s, has, hsbs ▸ hpk, hne⟩

/-- Keys-only version of `pipeline_peaks_spec`, valid without any
uniqueness assumption on the store keys. -/
theorem pipeline_peaks_keys (pmv mnp psim pstd : ℚ) (store : Store)
    (peaks0 : List (ℕ × List ℕ))
    (hsome : getAsesWithPeak pmv mnp psim pstd (fillDup store []).1 = some peaks0)
    (a : ℕ) (pk : List ℕ)
    (h : (a, pk) ∈ putDuplicatesBack peaks0 (fillDup store []).2) :
    a ∈ keys store := by
  rcases mem_putDuplicatesBack h with h1 | ⟨b, hb, hab⟩
  · obtain ⟨s, hs, _, _⟩ := getAsesWithPeak_mem pmv mnp psim pstd _ _ hsome a pk h1
    exact mem_keys_of_mem (fillDup_uniq_subset store [] _ hs)
  · cases halb : alookup b (fillDup store []).2 with
    | none => rw [halb] at hab; simp at hab
    | some l =>
      rw [halb] at hab
      simp only [Option.getD_some] at hab
      have hbl := alookup_some_mem b l _ halb
      obtain ⟨s, has, _⟩ := fillDup_dupl_mem_nil hbl hab
      exact mem_keys_of_mem has

theorem mem_intersectPeaks (pfx cfl : Store) (pfxPeaks : List (ℕ × List ℕ)) :
    ∀ (cflPeaks : List (ℕ × List ℕ)) (a : ℕ) (rec : LeakRecord),
      (a, rec) ∈ intersectPeaks pfx cfl pfxPeaks cflPeaks →
      ∃ cpk ppk, (a, cpk) ∈ cflPeaks ∧ alookup a pfxPeaks = some ppk ∧
        rec.leaks = cpk.filter (fun i => decide (i ∈ ppk)) ∧ rec.leaks ≠ [] := by
  intro cflPeaks
  induction cflPeaks with
  | nil => intro a rec h; simp [intersectPeaks] at h
  | cons p rest ih =>
    obtain ⟨asn, cpk⟩ := p
    intro a rec h
    simp only [intersectPeaks] at h
    split at h
    · rename_i ppk hppk
      split at h
      · obtain ⟨cpk', ppk', h1, h2, h3, h4⟩ := ih a rec h
        exact ⟨cpk', ppk', List.mem_cons_of_mem _ h1, h2, h3, h4⟩
      · rename_i hne
        rcases List.mem_cons.mp h with h1 | h1
        · simp only [Prod.mk.injEq] at h1
          obtain ⟨rfl, rfl⟩ := h1
          refine ⟨cpk, ppk, List.mem_cons_self _ _, hppk, rfl, ?_⟩
          simpa [List.isEmpty_iff] using hne
        · obtain ⟨cpk', ppk', h2, h3, h4, h5⟩ := ih a rec h1
          exact ⟨cpk', ppk', List.mem_cons_of_mem _ h2, h3, h4, h5⟩
    · obtain ⟨cpk', ppk', h1, h2, h3, h4⟩ := ih a rec h
      exact ⟨cpk', ppk', List.mem_cons_of_mem _ h1, h2, h3, h4⟩

/-- Successful runs of `get_route_leaks` either hit the length guard (empty
result) or went through the peak pipeline on both stores. -/
theorem getRouteLeaks_some (minNbDays : ℕ) (pfx cfl : Store) (p : Params)
    (kwargs : List (String × ℚ)) (res : List (ℕ × LeakRecord))
    (h : (getRouteLeaks minNbDays pfx cfl p kwargs).1 = some res) :
    res = [] ∨
    ∃ pfxPeaks0 cflPeaks0,
      getAsesWithPeak (applyKwargs p kwargs).pfx_peak_min_value
          (applyKwargs p kwargs).max_nb_peaks
          (applyKwargs p kwargs).percent_similarity
          (applyKwargs p kwargs).percent_std (fillDup pfx []).1 = some pfxPeaks0 ∧
      getAsesWithPeak (applyKwargs p kwargs).cfl_peak_min_value
          (applyKwargs p kwargs).max_nb_peaks
          (applyKwargs p kwargs).percent_similarity
          (applyKwargs p kwargs).percent_std (fillDup cfl []).1 = some cflPeaks0 ∧
      res = intersectPeaks pfx cfl
          (putDuplicatesBack pfxPeaks0 (fillDup pfx []).2)
          (putDuplicatesBack cflPeaks0 (fillDup cfl []).2) := by
  simp only [getRouteLeaks] at h
  split at h
  · simp at h
  · split at h
    · left
      obtain rfl := (Option.some_inj.mp h).symm
      rfl
    · split at h
      · rename_i pfxPeaks0 cflPeaks0 h1 h2
        right
        exact ⟨pfxPeaks0, cflPeaks0, h1, h2, (Option.some_inj.mp h).symm⟩
      · simp at h

/-- C1: for every pair of input stores, every parameter setting and every
keyword-argument list, when `get_route_leaks` returns a result (rather than
raising), every AS of the result belongs to the key set of the prefix store
and to the key set of the conflict store — including ASes whose peaks were
obtained by replicating duplicate-coalesced results back to their owners. -/
theorem get_route_leaks_keys_subset (minNbDays : ℕ) (pfx cfl : Store)
    (p : Params) (kwargs : List (String × ℚ)) (res : List (ℕ × LeakRecord))
    (hres : (getRouteLeaks minNbDays pfx cfl p kwargs).1 = some res) :
    ∀ asn ∈ keys res, asn ∈ keys pfx ∧ asn ∈ keys cfl := by
  intro asn hasn
  rcases getRouteLeaks_some minNbDays pfx cfl p kwargs res hres with
    rfl | ⟨pfxPeaks0, cflPeaks0, h1, h2, rfl⟩
  · simp [keys] at hasn
  · obtain ⟨x, hx, rfl⟩ := List.mem_map.mp hasn
    have hx' : (x.1, x.2) ∈ intersectPeaks pfx cfl
        (putDuplicatesBack pfxPeaks0 (fillDup pfx []).2)
        (putDuplicatesBack cflPeaks0 (fillDup cfl []).2) := Prod.mk.eta ▸ hx
    obtain ⟨cpk, ppk, hc, hp, _, _⟩ := mem_intersectPeaks _ _ _ _ _ _ hx'
    constructor
    · exact pipeline_peaks_keys _ _ _ _ pfx pfxPeaks0 h1 x.1 ppk
        (alookup_some_mem _ _ _ hp)
    · exact pipeline_peaks_keys _ _ _ _ cfl cflPeaks0 h2 x.1 cpk hc

/-- Witness for C1: the single-AS boundary run (with the length guard at 3,
as in the repository's tests) returns AS 1, which is a key of both stores. -/
theorem get_route_leaks_keys_subset_witness :
    (getRouteLeaks 3 [(1, [5, 5, 25, 5, 5, 5])] [(1, [5, 5, 25, 5, 5, 5])]
        defaultParams []).1
      = some [(1, { leaks := [2], pfx_data := [5, 5, 25, 5, 5, 5],
                    cfl_data := [5, 5, 25, 5, 5, 5] })] ∧
    (1 ∈ keys [((1 : ℕ), ([5, 5, 25, 5, 5, 5] : Series))]
      ∧ 1 ∈ keys [((1 : ℕ), ([5, 5, 25, 5, 5, 5] : Series))]) := by
  have hres : (getRouteLeaks 3 [(1, [5, 5, 25, 5, 5, 5])]
      [(1, [5, 5, 25, 5, 5, 5])] defaultParams []).1
      = some [(1, { leaks := [2], pfx_data := [5, 5, 25, 5, 5, 5],
                    cfl_data := [5, 5, 25, 5, 5, 5] })] :=
    of_decide_eq_true (by with_unfolding_all rfl)
  refine ⟨hres, ?_⟩
  exact get_route_leaks_keys_subset 3 _ _ defaultParams [] _ hres 1
    (of_decide_eq_true (by with_unfolding_all rfl))

/-- C2: when the stores have duplicate-free key sets and `get_route_leaks`
returns a result, every leak index `i` reported for AS `a` satisfies
`0 < i < len(pfx[a]) − 1` and belongs both to the peak set computed on a's
prefix series and to the peak set computed on a's conflict series, under
the same five parameters the run used. -/
theorem get_route_leaks_leak_indexes (minNbDays : ℕ) (pfx cfl : Store)
    (p : Params) (kwargs : List (String × ℚ)) (res : List (ℕ × LeakRecord))
    (hndp : (keys pfx).Nodup) (hndc : (keys cfl).Nodup)
    (hres : (getRouteLeaks minNbDays pfx cfl p kwargs).1 = some res) :
    ∀ asn rec, (asn, rec) ∈ res → ∀ i ∈ rec.leaks,
      ∃ ps cs, alookup asn pfx = some ps ∧ alookup asn cfl = some cs ∧
        0 < i ∧ i + 1 < ps.length ∧
        i ∈ theBigMaxes ps (applyKwargs p kwargs).pfx_peak_min_value
            (applyKwargs p kwargs).max_nb_peaks
            (applyKwargs p kwargs).percent_similarity
            (applyKwargs p kwargs).percent_std ∧
        i ∈ theBigMaxes cs (applyKwargs p kwargs).cfl_peak_min_value
            (applyKwargs p kwargs).max_nb_peaks
            (applyKwargs p kwargs).percent_similarity
            (applyKwargs p kwargs).percent_std := by
  intro asn rec hmem i hi
  rcases getRouteLeaks_some minNbDays pfx cfl p kwargs res hres with
    rfl | ⟨pfxPeaks0, cflPeaks0, h1, h2, rfl⟩
  · simp at hmem
  · obtain ⟨cpk, ppk, hc, hp, hleaks, _⟩ := mem_intersectPeaks _ _ _ _ _ _ hmem
    have hppk := alookup_some_mem _ _ _ hp
    obtain ⟨ps, hps, hpkp, _⟩ :=
      pipeline_peaks_spec _ _ _ _ pfx pfxPeaks0 hndp h1 asn ppk hppk
    obtain ⟨cs, hcs, hpkc, _⟩ :=
      pipeline_peaks_spec _ _ _ _ cfl cflPeaks0 hndc h2 asn cpk hc
    have hia : i ∈ cpk ∧ i ∈ ppk := by
      rw [hleaks] at hi
      have := List.mem_filter.mp hi
      exact ⟨this.1, of_decide_eq_true this.2⟩
    have hip : i ∈ theBigMaxes ps (applyKwargs p kwargs).pfx_peak_min_value
        (applyKwargs p kwargs).max_nb_peaks
        (applyKwargs p kwargs).percent_similarity
        (applyKwargs p kwargs).percent_std := hpkp ▸ hia.2
    have hic : i ∈ theBigMaxes cs (applyKwargs p kwargs).cfl_peak_min_value
        (applyKwargs p kwargs).max_nb_peaks
        (applyKwargs p kwargs).percent_similarity
        (applyKwargs p kwargs).percent_std := hpkc ▸ hia.1
    have hb := mem_theBigMaxes_bounds ps _ _ _ _ i hip
    exact ⟨ps, cs, alookup_eq_some_of_mem_nodup hndp hps,
      alookup_eq_some_of_mem_nodup hndc hcs, hb.1, hb.2, hip, hic⟩

/-- Witness for C2 at the boundary run: leak index 2 of AS 1 is strictly
interior and is a peak of both series. -/
theorem get_route_leaks_leak_indexes_witness :
    (keys [((1 : ℕ), ([5, 5, 25, 5, 5, 5] : Series))]).Nodup ∧
    (getRouteLeaks 3 [(1, [5, 5, 25, 5, 5, 5])] [(1, [5, 5, 25, 5, 5, 5])]
        defaultParams []).1
      = some [(1, { leaks := [2], pfx_data := [5, 5, 25, 5, 5, 5],
                    cfl_data := [5, 5, 25, 5, 5, 5] })] ∧
    (∃ ps cs, alookup 1 [((1 : ℕ), ([5, 5, 25, 5, 5, 5] : Series))] = some ps ∧
      alookup 1 [((1 : ℕ), ([5, 5, 25, 5, 5, 5] : Series))] = some cs ∧
      0 < 2 ∧ 2 + 1 < ps.length ∧
      2 ∈ theBigMaxes ps (applyKwargs defaultParams []).pfx_peak_min_value
          (applyKwargs defaultParams []).max_nb_peaks
          (applyKwargs defaultParams []).percent_similarity
          (applyKwargs defaultParams []).percent_std ∧
      2 ∈ theBigMaxes cs (applyKwargs defaultParams []).cfl_peak_min_value
          (applyKwargs defaultParams []).max_nb_peaks
          (applyKwargs defaultParams []).percent_similarity
          (applyKwargs defaultParams []).percent_std) := by
  have hnd : (keys [((1 : ℕ), ([5, 5, 25, 5, 5, 5] : Series))]).Nodup :=
    of_decide_eq_true (by with_unfolding_all rfl)
  have hres : (getRouteLeaks 3 [(1, [5, 5, 25, 5, 5, 5])]
      [(1, [5, 5, 25, 5, 5, 5])] defaultParams []).1
      = some [(1, { leaks := [2], pfx_data := [5, 5, 25, 5, 5, 5],
                    cfl_data := [5, 5, 25, 5, 5, 5] })] :=
    of_decide_eq_true (by with_unfolding_all rfl)
  refine ⟨hnd, hres, ?_⟩
  exact get_route_leaks_leak_indexes 3 _ _ defaultParams [] _ hnd hnd hres 1
    { leaks := [2], pfx_data := [5, 5, 25, 5, 5, 5],
      cfl_data := [5, 5, 25, 5, 5, 5] }
    (of_decide_eq_true (by with_unfolding_all rfl)) 2
    (of_decide_eq_true (by with_unfolding_all rfl))

/-! ## Claim C3: boundary scenario 1 -/

/-- C3 (counterexample): with the source's default `MIN_NB_DAYS = 31`, the
boundary run on the six-day stores `{A: [5,5,25,5,5,5]}` hits the length
guard and returns the empty mapping — not a result containing AS A with
leaks [2] as the claim states. -/
theorem boundary_scenario1_counterexample :
    (getRouteLeaks MIN_NB_DAYS [(1, [5, 5, 25, 5, 5, 5])]
        [(1, [5, 5, 25, 5, 5, 5])] defaultParams []).1 = some [] :=
  of_decide_eq_true (by with_unfolding_all rfl)

/-- C3 (amended): with the length guard lowered to 3 (the repository's
tests set `MIN_NB_DAYS = 3`; the default guard of 31 rejects the six-day
series), the run on `{A: [5,5,25,5,5,5]}` for both stores with default
parameters returns exactly AS A with leaks [2]. -/
theorem boundary_scenario1_guard3 :
    (getRouteLeaks 3 [(1, [5, 5, 25, 5, 5, 5])] [(1, [5, 5, 25, 5, 5, 5])]
        defaultParams []).1
      = some [(1, { leaks := [2], pfx_data := [5, 5, 25, 5, 5, 5],
                    cfl_data := [5, 5, 25, 5, 5, 5] })] :=
  of_decide_eq_true (by with_unfolding_all rfl)

/-! ## Claim C10: detection on an empty prefix store raises -/

/-- C10: when the prefix store is empty, `get_route_leaks` raises
(`self.pfx_data.values()[0]` is an IndexError) instead of returning an
empty result, for every conflict store, parameter setting and keyword
arguments; the parameter mapping is left untouched. -/
theorem get_route_leaks_empty_pfx_raises (minNbDays : ℕ) (cfl : Store)
    (p : Params) (kwargs : List (String × ℚ)) :
    getRouteLeaks minNbDays [] cfl p kwargs = (none, p) := rfl

/-! ## Claim C9: get_route_leaks and the parameter mapping -/

set_option maxRecDepth 8000 in
/-- C9 (counterexample): calling `get_route_leaks` with the keyword
argument `pfx_peak_min_value = 42` on a 31-day store mutates the stored
parameter mapping: the entry becomes 42 and the mapping no longer equals
the default mapping (whose entry is 10). -/
theorem get_route_leaks_mutates_params_counterexample :
    (getRouteLeaks MIN_NB_DAYS [(1, List.replicate 31 0)]
        [(1, List.replicate 31 0)] defaultParams
        [("pfx_peak_min_value", 42)]).2.pfx_peak_min_value = 42 ∧
    (getRouteLeaks MIN_NB_DAYS [(1, List.replicate 31 0)]
        [(1, List.replicate 31 0)] defaultParams
        [("pfx_peak_min_value", 42)]).2 ≠ defaultParams ∧
    defaultParams.pfx_peak_min_value = 10 :=
  of_decide_eq_true (by with_unfolding_all rfl)

/-- The value assigned to a given parameter name by the kwargs loop: the
last recognized occurrence wins. -/
def lastKwarg (kwargs : List (String × ℚ)) (name : String) : Option ℚ :=
  ((kwargs.filter (fun kv => decide (kv.1 = name))).getLast?).map Prod.snd

theorem lastKwarg_cons (kv : String × ℚ) (rest : List (String × ℚ))
    (name : String) (d : ℚ) :
    (lastKwarg (kv :: rest) name).getD d
      = if kv.1 = name then (lastKwarg rest name).getD kv.2
        else (lastKwarg rest name).getD d := by
  unfold lastKwarg
  by_cases h : kv.1 = name
  · rw [if_pos h]
    rw [List.filter_cons, if_pos (by simpa using h)]
    cases hfr : rest.filter (fun kv => decide (kv.1 = name)) with
    | nil => simp
    | cons x xs =>
      rw [List.getLast?_cons_cons, List.getLast?_eq_getLast (x :: xs) (by simp)]
      simp
  · rw [if_neg h]
    rw [List.filter_cons, if_neg (by simpa using h)]

theorem applyKwarg_field_pfx (q : Params) (kv : String × ℚ) :
    (applyKwarg q kv).pfx_peak_min_value
      = if kv.1 = "pfx_peak_min_value" then kv.2 else q.pfx_peak_min_value := by
  unfold applyKwarg; split_ifs <;> simp_all

theorem applyKwarg_field_cfl (q : Params) (kv : String × ℚ) :
    (applyKwarg q kv).cfl_peak_min_value
      = if kv.1 = "cfl_peak_min_value" then kv.2 else q.cfl_peak_min_value := by
  unfold applyKwarg; split_ifs <;> simp_all

theorem applyKwarg_field_mnp (q : Params) (kv : String × ℚ) :
    (applyKwarg q kv).max_nb_peaks
      = if kv.1 = "max_nb_peaks" then kv.2 else q.max_nb_peaks := by
  unfold applyKwarg; split_ifs <;> simp_all

theorem applyKwarg_field_psim (q : Params) (kv : String × ℚ) :
    (applyKwarg q kv).percent_similarity
      = if kv.1 = "percent_similarity" then kv.2 else q.percent_similarity := by
  unfold applyKwarg; split_ifs <;> simp_all

theorem applyKwarg_field_pstd (q : Params) (kv : String × ℚ) :
    (applyKwarg q kv).percent_std
      = if kv.1 = "percent_std" then kv.2 else q.percent_std := by
  unfold applyKwarg; split_ifs <;> simp_all

theorem applyKwargs_last_wins : ∀ (kwargs : List (String × ℚ)) (p : Params),
    applyKwargs p kwargs =
      { pfx_peak_min_value :=
          (lastKwarg kwargs "pfx_peak_min_value").getD p.pfx_peak_min_value,
        cfl_peak_min_value :=
          (lastKwarg kwargs "cfl_peak_min_value").getD p.cfl_peak_min_value,
        max_nb_peaks := (lastKwarg kwargs "max_nb_peaks").getD p.max_nb_peaks,
        percent_similarity :=
          (lastKwarg kwargs "percent_similarity").getD p.percent_similarity,
        percent_std := (lastKwarg kwargs "percent_std").getD p.percent_std } := by
  intro kwargs
  induction kwargs with
  | nil => intro p; simp [applyKwargs, lastKwarg]
  | cons kv rest ih =>
    intro p
    have hstep : applyKwargs p (kv :: rest) = applyKwargs (applyKwarg p kv) rest := rfl
    rw [hstep, ih (applyKwarg p kv)]
    have e1 := applyKwarg_field_pfx p kv
    have e2 := applyKwarg_field_cfl p kv
    have e3 := applyKwarg_field_mnp p kv
    have e4 := applyKwarg_field_psim p kv
    have e5 := applyKwarg_field_pstd p kv
    simp only [Params.mk.injEq]
    refine ⟨?_, ?_, ?_, ?_, ?_⟩
    · rw [lastKwarg_cons, e1]; split_ifs <;> rfl
    · rw [lastKwarg_cons, e2]; split_ifs <;> rfl
    · rw [lastKwarg_cons, e3]; split_ifs <;> rfl
    · rw [lastKwarg_cons, e4]; split_ifs <;> rfl
    · rw [lastKwarg_cons, e5]; split_ifs <;> rfl

/-- C9 (amended): `get_route_leaks` does mutate the stored parameter
mapping.  A call with no keyword arguments leaves it unchanged; a call that
passes the length guard sets each of the five parameters to the last
keyword-argument value supplied for its name, keeping its previous value
when the name is absent (unknown names are ignored). -/
theorem get_route_leaks_params_spec (minNbDays : ℕ) (pfx cfl : Store)
    (p : Params) (kwargs : List (String × ℚ)) :
    (getRouteLeaks minNbDays pfx cfl p []).2 = p ∧
    (∀ fstEntry, pfx.head? = some fstEntry → minNbDays ≤ fstEntry.2.length →
      (getRouteLeaks minNbDays pfx cfl p kwargs).2 =
        { pfx_peak_min_value :=
            (lastKwarg kwargs "pfx_peak_min_value").getD p.pfx_peak_min_value,
          cfl_peak_min_value :=
            (lastKwarg kwargs "cfl_peak_min_value").getD p.cfl_peak_min_value,
          max_nb_peaks := (lastKwarg kwargs "max_nb_peaks").getD p.max_nb_peaks,
          percent_similarity :=
            (lastKwarg kwargs "percent_similarity").getD p.percent_similarity,
          percent_std := (lastKwarg kwargs "percent_std").getD p.percent_std }) := by
  constructor
  · simp only [getRouteLeaks]
    split
    · rfl
    · split
      · rfl
      · split
        · rfl
        · rfl
  · intro fstEntry hhead hlen
    rw [← applyKwargs_last_wins kwargs p]
    simp only [getRouteLeaks, hhead]
    rw [if_neg (by omega)]
    split
    · rfl
    · rfl

set_option maxRecDepth 8000 in
/-- Witness for the amended C9: the 31-day all-zero store passes the guard,
and the call sets `pfx_peak_min_value` to the kwarg value 42. -/
theorem get_route_leaks_params_spec_witness :
    (getRouteLeaks MIN_NB_DAYS [((1 : ℕ), List.replicate 31 (0 : ℚ))]
        [((1 : ℕ), List.replicate 31 (0 : ℚ))] defaultParams []).2 = defaultParams ∧
    [((1 : ℕ), List.replicate 31 (0 : ℚ))].head?
        = some ((1 : ℕ), List.replicate 31 (0 : ℚ)) ∧
    MIN_NB_DAYS ≤ (List.replicate 31 (0 : ℚ)).length ∧
    (getRouteLeaks MIN_NB_DAYS [((1 : ℕ), List.replicate 31 (0 : ℚ))]
        [((1 : ℕ), List.replicate 31 (0 : ℚ))] defaultParams
        [("pfx_peak_min_value", 42)]).2 =
      { pfx_peak_min_value :=
          (lastKwarg [("pfx_peak_min_value", 42)] "pfx_peak_min_value").getD
            defaultParams.pfx_peak_min_value,
        cfl_peak_min_value :=
          (lastKwarg [("pfx_peak_min_value", 42)] "cfl_peak_min_value").getD
            defaultParams.cfl_peak_min_value,
        max_nb_peaks :=
          (lastKwarg [("pfx_peak_min_value", 42)] "max_nb_peaks").getD
            defaultParams.max_nb_peaks,
        percent_similarity :=
          (lastKwarg [("pfx_peak_min_value", 42)] "percent_similarity").getD
            defaultParams.percent_similarity,
        percent_std :=
          (lastKwarg [("pfx_peak_min_value", 42)] "percent_std").getD
            defaultParams.percent_std } := by
  refine ⟨(get_route_leaks_params_spec MIN_NB_DAYS _ _ defaultParams []).1,
    rfl, by simp [MIN_NB_DAYS], ?_⟩
  exact (get_route_leaks_params_spec MIN_NB_DAYS
      [((1 : ℕ), List.replicate 31 (0 : ℚ))]
      [((1 : ℕ), List.replicate 31 (0 : ℚ))] defaultParams
      [("pfx_peak_min_value", 42)]).2
    ((1 : ℕ), List.replicate 31 (0 : ℚ)) rfl (by simp [MIN_NB_DAYS])

/-! ## Claim C7: the parameter fitter's breakpoint selection
(detect_route_leaks.py lines 409-446 and 820-1030) -/

inductive ParamName
  | pfx_peak_min_value
  | cfl_peak_min_value
  | max_nb_peaks
  | percent_similarity
  | percent_std
deriving DecidableEq

/-- The `selective_index` class attributes of the `_Param*` subclasses
(lines 1008-1030). -/
def selective_index : ParamName → ℕ
  | .pfx_peak_min_value => 1
  | .cfl_peak_min_value => 1
  | .percent_similarity => 1
  | .max_nb_peaks => 0
  | .percent_std => 0

/-- `ParamValue.lr_points` (lines 858-862): the sweep grid per parameter. -/
def lr_points : ParamName → List ℚ
  | .cfl_peak_min_value => (List.range 50).map (fun n => (n : ℚ))
  | .pfx_peak_min_value => (List.range 50).map (fun n => (n : ℚ))
  | .percent_std => (List.range' 1 10).map (fun n => (n : ℚ) / 10)
  | .percent_similarity => (List.range' 1 10).map (fun n => (n : ℚ) / 10)
  | .max_nb_peaks => (List.range' 1 50).map (fun n => (n : ℚ))

/-- `ParamValue._map_lr_value_to_real_value` (lines 991-995):
`self.lin_reg_pts[lr_value - 1]`. -/
def map_lr_value_to_real_value (param : ParamName) (lrValue : ℕ) : ℚ :=
  (lr_points param).getD (lrValue - 1) 0

/-- The result triple of `get_param_optimized_values` (lines 985-989) given
the best 3-piece fit `(score, i1, i2)`: the score followed by the two
breakpoints mapped to their grid values. -/
def lr_res_of_best (param : ParamName) (best : ℚ × ℕ × ℕ) : List ℚ :=
  [best.1, map_lr_value_to_real_value param best.2.1,
    map_lr_value_to_real_value param best.2.2]

/-- `FittedFindRouteLeaks.get_best_param_value` (lines 433-446), applied to
the fit result triple: `lr_res[-1]` for `percent_std` (the override),
otherwise `lr_res[selective_index + 1]`. -/
def get_best_param_value (param : ParamName) (lrRes : List ℚ) : ℚ :=
  if param = ParamName.percent_std then (lrRes.getLast?).getD 0
  else lrRes.getD (selective_index param + 1) 0

/-- C7: for every fit result `(score, i1, i2)`, the fitter chooses for
`percent_std` the grid value of the SECOND breakpoint `i2` even though its
`selective_index` is 0; `pfx_peak_min_value`, `cfl_peak_min_value` and
`percent_similarity` get the breakpoint selected by `selective_index = 1`
(the second), and `max_nb_peaks` the one selected by `selective_index = 0`
(the first). -/
theorem get_best_param_value_spec (s : ℚ) (i1 i2 : ℕ) :
    (get_best_param_value .percent_std (lr_res_of_best .percent_std (s, i1, i2))
        = map_lr_value_to_real_value .percent_std i2
      ∧ selective_index .percent_std = 0) ∧
    (get_best_param_value .pfx_peak_min_value
          (lr_res_of_best .pfx_peak_min_value (s, i1, i2))
        = map_lr_value_to_real_value .pfx_peak_min_value i2
      ∧ selective_index .pfx_peak_min_value = 1) ∧
    (get_best_param_value .cfl_peak_min_value
          (lr_res_of_best .cfl_peak_min_value (s, i1, i2))
        = map_lr_value_to_real_value .cfl_peak_min_value i2
      ∧ selective_index .cfl_peak_min_value = 1) ∧
    (get_best_param_value .percent_similarity
          (lr_res_of_best .percent_similarity (s, i1, i2))
        = map_lr_value_to_real_value .percent_similarity i2
      ∧ selective_index .percent_similarity = 1) ∧
    (get_best_param_value .max_nb_peaks
          (lr_res_of_best .max_nb_peaks (s, i1, i2))
        = map_lr_value_to_real_value .max_nb_peaks i1
      ∧ selective_index .max_nb_peaks = 0) :=
  ⟨⟨rfl, rfl⟩, ⟨rfl, rfl⟩, ⟨rfl, rfl⟩, ⟨rfl, rfl⟩, ⟨rfl, rfl⟩⟩

/-! ## Claim C8: the feature extractor
(classification.py lines 114-411 and 609-667)

`np.log` and the square root inside `np.std` are modelled as uninterpreted
functions `lg` and `sqt`: the properties proved here do not depend on
their values. -/

/-- The keyword arguments handed to the attribute makers by
`create_svm_input` (lines 635-657). -/
structure AttrArgs where
  norm_var : List ℚ
  norm_var_for_std : List ℚ
  other_norm_var : List ℚ
  max_indexes : List ℕ
  raw_data : List ℚ
  curve_var : List ℚ
  max_index : ℕ
  pfx_var_norm_data : List ℚ
  corr : List ℚ
  value_corr : List ℚ

/-- `AttributeMakers.get_nb_approx_maxes` (lines 371-380). -/
def get_nb_approx_maxes (data : List ℚ) (maxIndex : ℕ) : ℕ :=
  (data.filter (fun elt => decide ((9/10) * getD data maxIndex ≤ elt))).length

/-- `AttributeMakers.get_max_impact_on_std` (lines 382-404), with `np.std`
modelled as `sqt ∘ pvariance`. -/
def get_max_impact_on_std (sqt : ℚ → ℚ) (data : List ℚ) (maxIndex : ℕ) : ℚ :=
  let std := sqt (pvariance data)
  let smoothenStd := sqt (pvariance (removeIndexes data [maxIndex]))
  if std ≠ 0 then smoothenStd / std else 1

/-- `AttributeMakers.calc_spread` (lines 406-411); Python `max`/`min` raise
on an empty index list, the callers pass non-empty ones. -/
def calc_spread (indexes : List ℕ) (data : List ℚ) : ℚ :=
  (((indexes.max?).getD 0 : ℚ) - ((indexes.min?).getD 0 : ℚ) + 1)
    / (data.length : ℚ)

def insertSorted (x : ℚ) : List ℚ → List ℚ
  | [] => [x]
  | y :: ys => if x ≤ y then x :: y :: ys else y :: insertSorted x ys

def sortAsc (xs : List ℚ) : List ℚ := xs.foldr insertSorted []

/-- `np.percentile(xs, q)`: linear interpolation at rank `q(n−1)/100` of
the sorted data. -/
def np_percentile (xs : List ℚ) (q : ℚ) : ℚ :=
  let s := sortAsc xs
  let h := q * ((s.length : ℚ) - 1) / 100
  let f := Int.toNat ⌊h⌋
  let lo := s.getD f 0
  let hi := s.getD (f + 1) lo
  lo + (h - (f : ℚ)) * (hi - lo)

/-- `corr_max_next` (lines 191-201). -/
def corr_max_next (a : AttrArgs) : List ℚ :=
  let nextMaxes := (a.max_indexes.filter
    (fun i => decide (i + 1 < a.corr.length))).map (fun i => getD a.corr (i + 1))
  [(nextMaxes.max?).getD 0]

/-- `corr_nb_maxes` (lines 203-212). -/
def corr_nb_maxes (a : AttrArgs) : List ℚ :=
  [(a.max_indexes.length : ℚ) / (a.pfx_var_norm_data.length : ℚ)]

/-- `corr_max_value` (lines 214-221). -/
def corr_max_value (lg : ℚ → ℚ) (a : AttrArgs) : List ℚ :=
  [if 0 < (a.value_corr.max?).getD 0 then lg ((a.value_corr.max?).getD 0) else 0]

/-- `max_var` (lines 223-233). -/
def max_var (a : AttrArgs) : List ℚ := [getD a.norm_var (a.max_index - 1)]

/-- `next_var` (lines 235-245). -/
def next_var (a : AttrArgs) : List ℚ := [getD a.norm_var a.max_index]

/-- `max_other_var` (lines 247-254). -/
def max_other_var (a : AttrArgs) : List ℚ :=
  [getD a.other_norm_var (a.max_index - 1)]

/-- `next_other_var` (lines 256-263). -/
def next_other_var (a : AttrArgs) : List ℚ := [getD a.other_norm_var a.max_index]

/-- `nb_maxes` (lines 265-273). -/
def nb_maxes (a : AttrArgs) : List ℚ :=
  [(get_nb_approx_maxes a.raw_data (a.max_indexes.headD 0) : ℚ)
    / (a.raw_data.length : ℚ)]

/-- `std_ratio` (lines 275-287). -/
def std_ratio (sqt : ℚ → ℚ) (a : AttrArgs) : List ℚ :=
  [get_max_impact_on_std sqt a.norm_var_for_std a.max_index]

/-- `other_std_ratio` (lines 289-296). -/
def other_std_ratio (sqt : ℚ → ℚ) (a : AttrArgs) : List ℚ :=
  [get_max_impact_on_std sqt a.other_norm_var a.max_index]

/-- `last_decile_attributes` (lines 298-310). -/
def last_decile_attributes (a : AttrArgs) : List ℚ :=
  let lastDecile := np_percentile a.norm_var 90
  let lastDecileIndexes := (a.norm_var.enum.filter
    (fun p => decide (-(1 / 10 ^ 10 : ℚ) < p.2 - lastDecile))).map Prod.fst
  [lastDecile, calc_spread lastDecileIndexes a.norm_var]

/-- `last_quartile_attributes` (lines 312-324). -/
def last_quartile_attributes (a : AttrArgs) : List ℚ :=
  let lastQuartile := np_percentile a.norm_var 75
  let lastQuartileIndexes := (a.norm_var.enum.filter
    (fun p => decide (-(1 / 10 ^ 10 : ℚ) < p.2 - lastQuartile))).map Prod.fst
  [lastQuartile, calc_spread lastQuartileIndexes a.norm_var]

/-- `percent_above_average` (lines 326-335). -/
def percent_above_average (a : AttrArgs) : List ℚ :=
  [((a.norm_var.filter (fun elt => decide (mean a.norm_var ≤ elt))).length : ℚ)
    / (a.norm_var.length : ℚ)]

/-- `var_of_max` (lines 337-346). -/
def var_of_max (lg : ℚ → ℚ) (a : AttrArgs) : List ℚ :=
  [if 0 < getD a.curve_var (a.max_index - 1)
    then lg (getD a.curve_var (a.max_index - 1)) else 0]

/-- `AttributeMakers.attribute_makers["bilat"]` in registration order
(lines 147-346). -/
def bilat_makers (lg sqt : ℚ → ℚ) : List (AttrArgs → List ℚ) :=
  [max_var, next_var, max_other_var, next_other_var, nb_maxes, std_ratio sqt,
    other_std_ratio sqt, last_decile_attributes, last_quartile_attributes,
    percent_above_average, var_of_max lg]

/-- `AttributeMakers.attribute_makers["unilat"]` in registration order. -/
def unilat_makers (lg sqt : ℚ → ℚ) : List (AttrArgs → List ℚ) :=
  [corr_max_next, corr_nb_maxes, corr_max_value lg, std_ratio sqt,
    last_decile_attributes, last_quartile_attributes, percent_above_average]

/-- `AttributeMakers.create_attributes` (lines 348-369): yield every value
of every bilat maker on the direct arguments, then on the reversed
arguments, then of every unilat maker on the correlation arguments. -/
def create_attributes (lg sqt : ℚ → ℚ)
    (bilatArgs bilatRevArgs unilatArgs : AttrArgs) : List ℚ :=
  ((bilat_makers lg sqt).map (fun f => f bilatArgs)).flatten
    ++ ((bilat_makers lg sqt).map (fun f => f bilatRevArgs)).flatten
    ++ ((unilat_makers lg sqt).map (fun f => f unilatArgs)).flatten

/-- C8: on every input whatsoever (hence one identical length for every
non-skipped AS of a run), a bilateral pass yields 13 features, so the two
sides yield 26, the correlation pass yields 9, and the whole feature
vector has exactly 13 × 2 + 9 = 35 entries. -/
theorem create_attributes_length (lg sqt : ℚ → ℚ) (a ar u : AttrArgs) :
    (((bilat_makers lg sqt).map (fun f => f a)).flatten).length = 13 ∧
    (((unilat_makers lg sqt).map (fun f => f u)).flatten).length = 9 ∧
    (create_attributes lg sqt a ar u).length = 35 :=
  ⟨rfl, rfl, by
    unfold create_attributes
    rw [List.length_append, List.length_append]
    rfl⟩

end RouteLeaks
